import Mathlib

/-!
Verification of the telephony WebSocket bridge's audio pipeline and
call-session state machine.

Each component of the Python source is shallowly embedded as executable
Lean definitions: byte buffers become `List Nat`, 16-bit linear PCM
samples become `Int`, Python floats (gains, wall-clock times) become `ℚ`,
and stateful methods become explicit state-passing functions.  External
black boxes (the spectral noise-reduction library, the companding codec,
the VAD network) are passed in as function parameters, exactly as the
spec treats them.
-/

namespace TelephonyWS

/-! ### Background noise source (`audio/noise_manager.py`)

`NoiseManager` holds the companded noise asset (`noise_data`), a read
cursor (`current_position`) and the enabled flag.  `get_noise_chunk`
mirrors `NoiseManager._get_noise_chunk` line by line: normalise the
cursor to 0 once it has reached the end, serve an in-buffer slice when
possible, otherwise concatenate the tail with a slice from the start.
`get_background_chunk_raw` mirrors the raw (no-gain) accessor.
-/

structure NoiseManager where
  enabled : Bool
  noise_data : List Nat
  current_position : Nat
deriving DecidableEq

/-- The source's cursor normalisation: `if self.current_position >= data_len:
self.current_position = 0`. -/
def effPos (data : List Nat) (pos : Nat) : Nat :=
  if data.length ≤ pos then 0 else pos

def NoiseManager.get_noise_chunk (m : NoiseManager) (chunk_size : Nat) :
    Option (List Nat) × NoiseManager :=
  if m.noise_data.isEmpty then
    (none, m)
  else
    let data_len := m.noise_data.length
    let pos := effPos m.noise_data m.current_position
    if pos + chunk_size ≤ data_len then
      (some ((m.noise_data.drop pos).take chunk_size),
       { m with current_position := pos + chunk_size })
    else
      let first_part := m.noise_data.drop pos
      let remaining := chunk_size - first_part.length
      let second_part := m.noise_data.take remaining
      (some (first_part ++ second_part), { m with current_position := remaining })

def NoiseManager.get_background_chunk_raw (m : NoiseManager) (chunk_size : Nat) :
    Option (List Nat) × NoiseManager :=
  if !m.enabled || m.noise_data.isEmpty then (none, m)
  else m.get_noise_chunk chunk_size

/-- Successive raw chunk reads, returning the concatenation of all bytes
served together with the final manager state. -/
def NoiseManager.readChunks (m : NoiseManager) : List Nat → List Nat × NoiseManager
  | [] => ([], m)
  | n :: ns =>
      let r := m.get_background_chunk_raw n
      let rest := r.2.readChunks ns
      ((r.1.getD []) ++ rest.1, rest.2)

/-- Byte `i` of the infinite cyclic repetition of `data`. -/
def cyc (data : List Nat) (i : Nat) : Nat :=
  data.getD (i % data.length) 0

/-- The `len` bytes of the cyclic repetition of `data` starting at
absolute offset `start`. -/
def cycSlice (data : List Nat) (start len : Nat) : List Nat :=
  (List.range len).map (fun j => cyc data (start + j))

/-! ### Voice activity detector (`audio/vad_processor.py`)

The Silero classifier is external; the state machine below is
`SileroVADProcessor._update_speech_state` verbatim.  `runWindows` is the
`while len(self.audio_buffer) >= self.min_samples` loop of
`process_chunk`, driven by the per-window classifier verdicts.
-/

structure VADState where
  is_speaking : Bool
  speech_frames : Nat
  silence_frames : Nat
deriving DecidableEq

structure VADResult where
  enabled : Bool
  is_speech : Bool
  confidence : ℚ
  speech_started : Bool
  speech_ended : Bool
  user_speaking : Bool
deriving DecidableEq

structure VADConfig where
  speech_threshold_frames : Nat
  silence_threshold_frames : Nat
deriving DecidableEq

def update_speech_state (cfg : VADConfig) (st : VADState) (is_speech : Bool)
    (speech_prob : ℚ) : VADState × VADResult :=
  if is_speech then
    let sf := st.speech_frames + 1
    if st.is_speaking = false ∧ cfg.speech_threshold_frames ≤ sf then
      (⟨true, sf, 0⟩, ⟨true, true, speech_prob, true, false, true⟩)
    else
      (⟨st.is_speaking, sf, 0⟩, ⟨true, true, speech_prob, false, false, st.is_speaking⟩)
  else
    let gf := st.silence_frames + 1
    if st.is_speaking = true ∧ cfg.silence_threshold_frames ≤ gf then
      (⟨false, 0, gf⟩, ⟨true, false, speech_prob, false, true, false⟩)
    else
      (⟨st.is_speaking, 0, gf⟩, ⟨true, false, speech_prob, false, false, st.is_speaking⟩)

/-- The window loop of `process_chunk`: one state update and one result
per 256-sample analysis window, in order. -/
def runWindows (cfg : VADConfig) (st : VADState) :
    List Bool → VADState × List VADResult
  | [] => (st, [])
  | b :: bs =>
      let s1 := update_speech_state cfg st b 0
      let rest := runWindows cfg s1.1 bs
      (rest.1, s1.2 :: rest.2)

/-! ### Interruption detector (`audio/interruption_detector.py`)

Wall-clock milliseconds (`time.time() * 1000`) become `ℚ`.
`check_interruption` is a pure function of the detector state, the VAD
result fields it reads, the agent-speaking flag and the current time.
-/

structure InterruptionDetector where
  enabled : Bool
  cooldown_ms : ℚ
  last_interruption_time : ℚ
  interruption_count : Nat
  total_checks : Nat
  false_positives_prevented : Nat
deriving DecidableEq

def check_interruption (d : InterruptionDetector) (vad_enabled speech_started : Bool)
    (agent_is_speaking : Bool) (current_time : ℚ) : InterruptionDetector × Bool :=
  let d0 := { d with total_checks := d.total_checks + 1 }
  if !d0.enabled then (d0, false)
  else if !vad_enabled then (d0, false)
  else
    let time_since_last := current_time - d0.last_interruption_time
    let in_cooldown := time_since_last < d0.cooldown_ms
    if agent_is_speaking = true ∧ speech_started = true then
      if in_cooldown then
        ({ d0 with false_positives_prevented := d0.false_positives_prevented + 1 },
         false)
      else
        ({ d0 with last_interruption_time := current_time,
                   interruption_count := d0.interruption_count + 1 },
         true)
    else (d0, false)

/-! ### Noise suppression stage (`audio/noise_supression.py`)

PCM frames are `List Int` (int16 samples); normalised float samples are
exact rationals.  The external `noisereduce.reduce_noise` call is a
parameter: its second argument is the frozen noise profile (`none` for
the adaptive call), and a `none` result models a raised exception caught
by the `except` block.
-/

/-- Python `int()` / numpy float-to-int conversion: truncation toward
zero, on exact rationals. -/
def truncQ (q : ℚ) : Int := q.num.tdiv q.den

structure NoiseSuppressionProcessor where
  enabled : Bool
  nr_loaded : Bool
  stationary : Bool
  learning_frames : Nat
  noise_profile_buffer : List (List ℚ)
  noise_profile : Option (List ℚ)
  frames_processed : Nat
  total_processed : Nat
  errors : Nat
deriving DecidableEq

/-- `deque(maxlen=50).append`: newest entry at the tail, oldest dropped
beyond 50 entries. -/
def dequeAppend (buf : List (List ℚ)) (x : List ℚ) : List (List ℚ) :=
  let b := buf ++ [x]
  b.drop (b.length - 50)

/-- `audio_float = audio_np.astype(np.float32) / 32768.0` (int16 inputs
divided by 32768 are exactly representable). -/
def normalizeFrame (frame : List Int) : List ℚ :=
  frame.map (fun x => (x : ℚ) / 32768)

/-- `(reduced * 32768.0).astype(np.int16)`: scale back and truncate, with
numpy's modular wraparound into the int16 range. -/
def denormalizeFrame (frame : List ℚ) : List Int :=
  frame.map (fun q => (truncQ (q * 32768) + 32768) % 65536 - 32768)

def NoiseSuppressionProcessor.bumped (s : NoiseSuppressionProcessor) :
    NoiseSuppressionProcessor :=
  { s with frames_processed := s.frames_processed + 1,
           total_processed := s.total_processed + 1 }

/-- The `noise_profile is None` profile-freezing step: concatenate the
learning buffer into the frozen profile. -/
def NoiseSuppressionProcessor.with_profile (s : NoiseSuppressionProcessor) :
    NoiseSuppressionProcessor :=
  if s.stationary = true ∧ s.noise_profile = none ∧ s.noise_profile_buffer ≠ [] then
    { s with noise_profile := some s.noise_profile_buffer.flatten }
  else s

/-- The `reduce_noise` invocation: against the frozen profile in
stationary mode, else the adaptive call (reduced aggressiveness folded
into the abstract reducer). -/
def NoiseSuppressionProcessor.reduce_call
    (reduce : List ℚ → Option (List ℚ) → Option (List ℚ))
    (s : NoiseSuppressionProcessor) (audio_float : List ℚ) : Option (List ℚ) :=
  if s.stationary = true ∧ s.noise_profile.isSome = true then
    reduce audio_float s.noise_profile
  else
    reduce audio_float none

def NoiseSuppressionProcessor.process_chunk
    (reduce : List ℚ → Option (List ℚ) → Option (List ℚ))
    (s : NoiseSuppressionProcessor) (frame : List Int) :
    NoiseSuppressionProcessor × List Int :=
  if !(s.enabled && s.nr_loaded) then (s, frame)
  else
    let audio_float := normalizeFrame frame
    let s1 := s.bumped
    if s1.stationary = true ∧ s1.frames_processed ≤ s1.learning_frames then
      ({ s1 with noise_profile_buffer :=
           dequeAppend s1.noise_profile_buffer audio_float }, frame)
    else
      let s2 := s1.with_profile
      match s2.reduce_call reduce audio_float with
      | some reduced => (s2, denormalizeFrame reduced)
      | none => ({ s2 with errors := s2.errors + 1 }, frame)

/-! ### Audio mixer (spec 4.6)

`AudioProcessor.mix_agent_audio_with_background` delegates the actual
mixing to `NoiseManager.apply_noise_to_frame`, which is not among the
sources under verification (only its caller is), so the operation is
modelled from the spec.  The companding codec is the spec's black box
with a known inverse, so it enters as the `enc`/`dec` parameters.
-/

def clamp16 (x : Int) : Int := max (-32768) (min 32767 x)

/-- Tile (repeat) the secondary buffer and truncate it to exactly
`target` samples; an empty buffer tiles to the empty buffer. -/
def tileTo (target : Nat) (l : List Int) : List Int :=
  (List.range target).map (fun i => l.getD (i % l.length) 0)

/-- The exact rational `primary + secondary * secondaryGain` for one
sample pair. -/
def mixSample (g : ℚ) (a b : Int) : ℚ := (a : ℚ) + (b : ℚ) * g

/-- Modelled from the spec: the per-sample body of the missing
`NoiseManager.apply_noise_to_frame` mixer — for each index of the
primary, `clamp(primary[i] + secondary[i] * secondaryGain, -32768,
32767)` over the tiled secondary. -/
def mixLinear (g : ℚ) (p s : List Int) : List Int :=
  (List.zipWith (mixSample g) p (tileTo p.length s)).map
    (fun q => clamp16 (truncQ q))

/-- Modelled from the spec: `mix(primary, secondary, secondaryGain)` of
4.6 — decode both companded buffers to linear PCM, tile or truncate
the secondary to the primary's length, add with gain and clamp, then
re-encode; an empty primary returns the secondary unchanged and an empty
secondary returns the primary unchanged. -/
def mix (enc : Int → Nat) (dec : Nat → Int) (g : ℚ)
    (primary secondary : List Nat) : List Nat :=
  if primary = [] then secondary
  else if secondary = [] then primary
  else (mixLinear g (primary.map dec) (secondary.map dec)).map enc

/-! ### Plivo message handler (`telephony/plivo_handler.py`)

Stream ids are abstract (`Option Nat`); media payloads are carried as
already-base64-decoded byte lists, with `none` standing for an absent or
empty (falsy) payload string.  `handle_message` returns the new handler
state, the list of audio-callback invocations and whether the
`call_ended` event callback fired.
-/

structure PlivoMessageHandler where
  stream_sid : Option Nat
  call_active : Bool
  call_started : Bool
  call_ended : Bool
  messages_received : Nat
  messages_sent : Nat
  last_message_time : Option ℚ
deriving DecidableEq

inductive PlivoMsg where
  | binary (data : List Nat)
  | mediaEvent (payload : Option (List Nat))
  | startEvent (streamId : Option Nat)
  | stopEvent
  | otherEvent
deriving DecidableEq

def handle_message (h : PlivoMessageHandler) (now : ℚ) (hasAudioCallback : Bool)
    (msg : PlivoMsg) : PlivoMessageHandler × List (List Nat) × Bool :=
  let h0 := { h with messages_received := h.messages_received + 1,
                     last_message_time := some now }
  match msg with
  | .binary data =>
      if h0.call_active && !h0.call_ended && hasAudioCallback then
        (h0, [data], false)
      else (h0, [], false)
  | .mediaEvent payload =>
      if !h0.call_active || h0.call_ended then (h0, [], false)
      else
        match payload with
        | some p => if hasAudioCallback then (h0, [p], false) else (h0, [], false)
        | none => (h0, [], false)
  | .startEvent sid =>
      ({ h0 with call_active := true, call_started := true, call_ended := false,
                 stream_sid := sid }, [], false)
  | .stopEvent =>
      ({ h0 with call_active := false, call_ended := true }, [], true)
  | .otherEvent => (h0, [], false)

/-- `send_audio_to_plivo`: `wsOk` abstracts `_check_websocket_state`,
`sendOk` whether the `websocket.send` call succeeds, `errClosed` whether
a failed send raised an error mentioning a closed socket.  The middle
component is the audio written to the WebSocket (none = nothing sent). -/
def send_audio_to_plivo (h : PlivoMessageHandler) (wsOk sendOk errClosed : Bool)
    (audio : List Nat) : PlivoMessageHandler × Option (List Nat) × Bool :=
  if h.call_ended then (h, none, false)
  else if !wsOk then (h, none, false)
  else if h.stream_sid = none then (h, none, false)
  else if sendOk then
    ({ h with messages_sent := h.messages_sent + 1 }, some audio, true)
  else
    ({ h with call_ended := errClosed }, none, false)

/-! ### Session audio inbound path (`telephony/websocket_handler.py`) -/

structure TelephonyWebSocketHandler where
  cleanup_started : Bool
  force_stop : Bool
  call_ended : Bool
  audio_frames_sent_to_livekit : Nat
  bytes_from_telephony : Nat
  dropped_frames : Nat
deriving DecidableEq

/-- `AudioProcessor.validate_audio_data`. -/
def validate_audio_data (processorActive : Bool) (audio : List Nat) : Bool :=
  processorActive && !audio.isEmpty

/-- `_handle_audio_from_plivo`: `hasSource`/`connected` abstract
`self.audio_source and self.livekit_manager.is_connected()`,
`processorActive` the audio processor flag read by `validate_audio_data`,
`pushOk` whether `audio_source.push_audio_data` raised.  The second
component lists the frames pushed to the room audio source. -/
def handle_audio_from_plivo (w : TelephonyWebSocketHandler)
    (hasSource connected processorActive pushOk : Bool) (audio : List Nat) :
    TelephonyWebSocketHandler × List (List Nat) :=
  if w.cleanup_started || w.force_stop || w.call_ended then (w, [])
  else if hasSource && connected then
    if !(validate_audio_data processorActive audio) then (w, [])
    else if pushOk then
      ({ w with
         audio_frames_sent_to_livekit := w.audio_frames_sent_to_livekit + 1,
         bytes_from_telephony := w.bytes_from_telephony + audio.length },
       [audio])
    else (w, [])
  else ({ w with dropped_frames := w.dropped_frames + 1 }, [])

/-! ### Cleanup idempotence (`TelephonyWebSocketHandler.cleanup`)

`cleanup()` opens with `if self.cleanup_started: return` immediately
followed by `self.cleanup_started = True` (plus the force-stop flags),
with no `await` in between, so under cooperative (asyncio) scheduling
the guard is one atomic step.  Two concurrent invocations are two tasks;
each runs its guard step and then, only if the guard passed, the cleanup
body — whose awaits may interleave arbitrarily with the other task and
which is summarised as one step incrementing the count of executed
disconnect/stats-log sequences (the body never resets the flag).  A
schedule is the sequence of which task steps next; `runSched` explores
every interleaving.
-/

inductive CleanupPC where
  | atGuard
  | inBody
  | doneRun
  | doneSkip
deriving DecidableEq

structure CleanupSys where
  cleanup_started : Bool
  force_stop : Bool
  call_ended : Bool
  executions : Nat
  pc1 : CleanupPC
  pc2 : CleanupPC
deriving DecidableEq

/-- One step of a single cleanup task: the guard (test-and-set of
`cleanup_started`, returning early when already set) or the body (one
disconnect/stats-log sequence). -/
def stepTask (s : CleanupSys) (pc : CleanupPC) : CleanupSys × CleanupPC :=
  match pc with
  | .atGuard =>
      if s.cleanup_started then (s, .doneSkip)
      else ({ s with cleanup_started := true, force_stop := true,
                     call_ended := true }, .inBody)
  | .inBody => ({ s with executions := s.executions + 1 }, .doneRun)
  | .doneRun => (s, .doneRun)
  | .doneSkip => (s, .doneSkip)

def stepCleanup (s : CleanupSys) (which : Bool) : CleanupSys :=
  if which then
    let r := stepTask s s.pc1
    { r.1 with pc1 := r.2 }
  else
    let r := stepTask s s.pc2
    { r.1 with pc2 := r.2 }

def runSched (s : CleanupSys) : List Bool → CleanupSys
  | [] => s
  | w :: ws => runSched (stepCleanup s w) ws

def initCleanup : CleanupSys := ⟨false, false, false, 0, .atGuard, .atGuard⟩

def doneTask : CleanupPC → Bool
  | .doneRun => true
  | .doneSkip => true
  | _ => false

def runCount : CleanupPC → Nat
  | .doneRun => 1
  | _ => 0

def activeCount : CleanupPC → Nat
  | .inBody => 1
  | .doneRun => 1
  | _ => 0

def CleanupInv (s : CleanupSys) : Prop :=
  s.executions = runCount s.pc1 + runCount s.pc2 ∧
  activeCount s.pc1 + activeCount s.pc2 ≤ 1 ∧
  (s.cleanup_started = false → s.pc1 = .atGuard ∧ s.pc2 = .atGuard) ∧
  (s.cleanup_started = true → 1 ≤ activeCount s.pc1 + activeCount s.pc2)

/-! ### Theorems -/

theorem cycSlice_length (data : List Nat) (start len : Nat) :
    (cycSlice data start len).length = len := by
  simp [cycSlice]

theorem cycSlice_append (data : List Nat) (start l1 l2 : Nat) :
    cycSlice data start (l1 + l2) =
      cycSlice data start l1 ++ cycSlice data (start + l1) l2 := by
  simp only [cycSlice, List.range_add, List.map_append, List.map_map]
  congr 1
  apply List.map_congr_left
  intro j _
  simp only [Function.comp_apply]
  congr 1
  omega

theorem cycSlice_in_period (data : List Nat) (start len : Nat)
    (h : start % data.length + len ≤ data.length) :
    cycSlice data start len = (data.drop (start % data.length)).take len := by
  apply List.ext_getElem
  · simp only [cycSlice_length, List.length_take, List.length_drop]
    omega
  · intro j h1 h2
    have hj : j < len := by simpa [cycSlice_length] using h1
    have hlt : start % data.length + j < data.length := by omega
    have hjL : j < data.length := by omega
    simp only [cycSlice, cyc, List.getElem_map, List.getElem_range,
      List.getElem_take, List.getElem_drop]
    have hmod : (start + j) % data.length = start % data.length + j := by
      rw [Nat.add_mod, Nat.mod_eq_of_lt hjL, Nat.mod_eq_of_lt hlt]
    rw [hmod, List.getD_eq_getElem data 0 hlt]

theorem effPos_lt (data : List Nat) (pos : Nat) (hd : data ≠ []) :
    effPos data pos < data.length := by
  have : 0 < data.length := List.length_pos.mpr hd
  unfold effPos
  split <;> omega

theorem effPos_eq_self (data : List Nat) (p : Nat) (h : p < data.length) :
    effPos data p = p := by
  unfold effPos
  rw [if_neg (by omega)]

theorem effPos_eq_zero (data : List Nat) (p : Nat) (h : data.length ≤ p) :
    effPos data p = 0 := by
  unfold effPos
  rw [if_pos h]

/-- One `_get_noise_chunk` call, started at any cursor that corresponds to
absolute stream offset `T`, serves a contiguous slice of the cyclic
repetition of the buffer starting at `T`, leaves the buffer and the
enabled flag untouched, and leaves the cursor at stream offset
`T + chunk.length`. -/
theorem get_noise_chunk_cyclic (data : List Nat) (e : Bool) (pos T n : Nat)
    (hd : data ≠ []) (hpt : effPos data pos = T % data.length) :
    ∃ c p2,
      (NoiseManager.mk e data pos).get_noise_chunk n = (some c, NoiseManager.mk e data p2) ∧
      c = cycSlice data T c.length ∧
      effPos data p2 = (T + c.length) % data.length := by
  have hL : 0 < data.length := List.length_pos.mpr hd
  have hp0 : effPos data pos < data.length := effPos_lt data pos hd
  have hne : data.isEmpty = false := by
    simp [List.isEmpty_iff, hd]
  have haddT : ∀ k : Nat, (T + k) % data.length = (effPos data pos + k) % data.length := by
    intro k
    conv_lhs => rw [Nat.add_mod]
    conv_rhs => rw [Nat.add_mod]
    rw [Nat.mod_eq_of_lt hp0, hpt]
  by_cases h1 : effPos data pos + n ≤ data.length
  · refine ⟨(data.drop (effPos data pos)).take n, effPos data pos + n, ?_, ?_, ?_⟩
    · simp only [NoiseManager.get_noise_chunk, hne, Bool.false_eq_true, if_false]
      rw [if_pos h1]
    · have hlen : ((data.drop (effPos data pos)).take n).length = n := by
        simp only [List.length_take, List.length_drop]
        omega
      rw [hlen, cycSlice_in_period data T n (by rw [← hpt]; omega), ← hpt]
    · have hlen : ((data.drop (effPos data pos)).take n).length = n := by
        simp only [List.length_take, List.length_drop]
        omega
      rw [hlen, haddT n]
      by_cases h2 : effPos data pos + n < data.length
      · rw [Nat.mod_eq_of_lt h2, effPos_eq_self data _ h2]
      · have h3 : effPos data pos + n = data.length := by omega
        rw [h3, Nat.mod_self, effPos_eq_zero data _ (le_refl _)]
  · refine ⟨data.drop (effPos data pos)
        ++ data.take (n - (data.length - effPos data pos)),
        n - (data.length - effPos data pos), ?_, ?_, ?_⟩
    · simp only [NoiseManager.get_noise_chunk, hne, Bool.false_eq_true, if_false]
      rw [if_neg h1]
      simp only [List.length_drop]
    · have hclen : (data.drop (effPos data pos)
          ++ data.take (n - (data.length - effPos data pos))).length
          = (data.length - effPos data pos)
            + min (n - (data.length - effPos data pos)) data.length := by
        simp only [List.length_append, List.length_drop, List.length_take]
      rw [hclen, cycSlice_append]
      have hpiece1 : cycSlice data T (data.length - effPos data pos)
          = data.drop (effPos data pos) := by
        rw [cycSlice_in_period data T _ (by rw [← hpt]; omega), ← hpt]
        apply List.take_of_length_le
        simp [List.length_drop]
      have hstart2 : (T + (data.length - effPos data pos)) % data.length = 0 := by
        rw [haddT]
        have hs : effPos data pos + (data.length - effPos data pos) = data.length := by
          omega
        rw [hs, Nat.mod_self]
      have hpiece2 : cycSlice data (T + (data.length - effPos data pos))
          (min (n - (data.length - effPos data pos)) data.length)
          = data.take (n - (data.length - effPos data pos)) := by
        rw [cycSlice_in_period data _ _
          (by rw [hstart2]; omega)]
        rw [hstart2, List.drop_zero]
        rcases le_total (n - (data.length - effPos data pos)) data.length with hrL | hrL
        · rw [Nat.min_eq_left hrL]
        · rw [Nat.min_eq_right hrL, List.take_length, List.take_of_length_le hrL]
      rw [hpiece1, hpiece2]
    · have hclen : (data.drop (effPos data pos)
          ++ data.take (n - (data.length - effPos data pos))).length
          = (data.length - effPos data pos)
            + min (n - (data.length - effPos data pos)) data.length := by
        simp only [List.length_append, List.length_drop, List.length_take]
      rw [hclen, haddT]
      have hs : effPos data pos + ((data.length - effPos data pos)
          + min (n - (data.length - effPos data pos)) data.length)
          = data.length + min (n - (data.length - effPos data pos)) data.length := by
        omega
      rw [hs, Nat.add_mod_left]
      rcases lt_or_le (n - (data.length - effPos data pos)) data.length with hrL | hrL
      · rw [Nat.min_eq_left (le_of_lt hrL), Nat.mod_eq_of_lt hrL,
          effPos_eq_self data _ hrL]
      · rw [Nat.min_eq_right hrL, Nat.mod_self, effPos_eq_zero data _ hrL]

/-- A run of raw chunk reads starting from any cursor that corresponds to
stream offset `T` emits exactly the cyclic reading of the buffer from `T`
onwards, and never mutates the buffer or the enabled flag. -/
theorem readChunks_cyclic (data : List Nat) (hd : data ≠ []) (sizes : List Nat) :
    ∀ pos T : Nat, effPos data pos = T % data.length →
      ((NoiseManager.mk true data pos).readChunks sizes).1
          = cycSlice data T ((NoiseManager.mk true data pos).readChunks sizes).1.length ∧
      ((NoiseManager.mk true data pos).readChunks sizes).2.noise_data = data ∧
      ((NoiseManager.mk true data pos).readChunks sizes).2.enabled = true ∧
      effPos data ((NoiseManager.mk true data pos).readChunks sizes).2.current_position
          = (T + ((NoiseManager.mk true data pos).readChunks sizes).1.length)
              % data.length := by
  have hne : data.isEmpty = false := by
    simp [List.isEmpty_iff, hd]
  induction sizes with
  | nil =>
      intro pos T h
      refine ⟨by simp [NoiseManager.readChunks, cycSlice], rfl, rfl, ?_⟩
      simpa [NoiseManager.readChunks] using h
  | cons n ns ih =>
      intro pos T h
      obtain ⟨c, p2, heq, hc, hp2⟩ := get_noise_chunk_cyclic data true pos T n hd h
      have hraw : (NoiseManager.mk true data pos).get_background_chunk_raw n
          = (some c, NoiseManager.mk true data p2) := by
        simp only [NoiseManager.get_background_chunk_raw, hne, Bool.not_true,
          Bool.false_or, Bool.false_eq_true, if_false]
        exact heq
      have hrc : (NoiseManager.mk true data pos).readChunks (n :: ns)
          = (c ++ ((NoiseManager.mk true data p2).readChunks ns).1,
             ((NoiseManager.mk true data p2).readChunks ns).2) := by
        simp only [NoiseManager.readChunks, hraw, Option.getD_some]
      obtain ⟨ih1, ih2, ih3, ih4⟩ := ih p2 (T + c.length) hp2
      rw [hrc]
      refine ⟨?_, ih2, ih3, ?_⟩
      · rw [List.length_append, cycSlice_append]
        rw [← hc, ← ih1]
      · rw [List.length_append, ← Nat.add_assoc]
        exact ih4

/-- C9: starting at cursor position 0, the concatenation of successive raw
chunk reads is exactly the cyclic reading of the loaded asset buffer, the
buffer is never mutated by the reads, and once the stream spans a full
wrap its first `data.length` bytes reproduce the original asset bytes in
order. -/
theorem noise_stream_reproduces_asset (data sizes : List Nat) (hd : data ≠ []) :
    ((NoiseManager.mk true data 0).readChunks sizes).1
        = cycSlice data 0 ((NoiseManager.mk true data 0).readChunks sizes).1.length ∧
    ((NoiseManager.mk true data 0).readChunks sizes).2.noise_data = data ∧
    (data.length ≤ ((NoiseManager.mk true data 0).readChunks sizes).1.length →
      ((NoiseManager.mk true data 0).readChunks sizes).1.take data.length = data) := by
  have hL : 0 < data.length := List.length_pos.mpr hd
  have h0 : effPos data 0 = 0 % data.length := by
    rw [Nat.zero_mod, effPos_eq_self data 0 hL]
  obtain ⟨h1, h2, _, _⟩ := readChunks_cyclic data hd sizes 0 0 h0
  refine ⟨h1, h2, ?_⟩
  intro hlen
  rw [h1]
  have hfull : cycSlice data 0 data.length = data := by
    rw [cycSlice_in_period data 0 data.length (by simp)]
    simp
  have htake : (cycSlice data 0
      ((NoiseManager.mk true data 0).readChunks sizes).1.length).take data.length
      = cycSlice data 0 data.length := by
    unfold cycSlice
    rw [← List.map_take, List.take_range, Nat.min_eq_left hlen]
  rw [htake, hfull]

/-- Witness for `noise_stream_reproduces_asset`: a 3-byte asset read in
four 2-byte chunks spans a full wrap and reproduces the asset. -/
theorem noise_stream_reproduces_asset_witness :
    ([1, 2, 3] : List Nat) ≠ [] ∧
    ((NoiseManager.mk true [1, 2, 3] 0).readChunks [2, 2, 2, 2]).1.take 3 = [1, 2, 3] :=
  ⟨by decide,
   (noise_stream_reproduces_asset [1, 2, 3] [2, 2, 2, 2] (by decide)).2.2 (by decide)⟩

/-- C3 counterexample: a loaded 1-byte asset with a requested size of 3
returns only 2 bytes, not the requested 3. -/
theorem noise_chunk_short_read :
    ((NoiseManager.mk true [7] 0).get_background_chunk_raw 3).1 = some [7, 7] ∧
    (([7, 7] : List Nat).length = 3 → False) := by
  decide

/-- C3 (amended): a raw chunk read on a loaded, enabled noise source
returns exactly `min n (2 * len - pos)` bytes, where `pos` is the
normalised cursor; in particular it returns exactly `n` bytes whenever
`n` is at most the buffer length.  (For `n` beyond `2 * len - pos` the
wrap concatenates at most one full copy of the buffer, so the read falls
short of `n`.) -/
theorem noise_chunk_exact_size (m : NoiseManager) (n : Nat)
    (he : m.enabled = true) (hd : m.noise_data ≠ []) :
    ∃ c, (m.get_background_chunk_raw n).1 = some c ∧
      c.length = min n
        (2 * m.noise_data.length - effPos m.noise_data m.current_position) ∧
      (n ≤ m.noise_data.length → c.length = n) := by
  obtain ⟨e, data, pos⟩ := m
  simp only at he hd
  subst he
  have hL : 0 < data.length := List.length_pos.mpr hd
  have hp0 : effPos data pos < data.length := effPos_lt data pos hd
  have hne : data.isEmpty = false := by
    simp [List.isEmpty_iff, hd]
  simp only [NoiseManager.get_background_chunk_raw, hne, Bool.not_true,
    Bool.false_or, Bool.false_eq_true, if_false]
  simp only [NoiseManager.get_noise_chunk, hne, Bool.false_eq_true, if_false]
  by_cases h1 : effPos data pos + n ≤ data.length
  · rw [if_pos h1]
    refine ⟨_, rfl, ?_, ?_⟩
    · simp only [List.length_take, List.length_drop]
      omega
    · intro _
      simp only [List.length_take, List.length_drop]
      omega
  · rw [if_neg h1]
    refine ⟨_, rfl, ?_, ?_⟩
    · simp only [List.length_append, List.length_take, List.length_drop]
      omega
    · intro hn
      simp only [List.length_append, List.length_take, List.length_drop]
      omega

/-- Witness for `noise_chunk_exact_size`: a 3-byte asset at cursor 2 read
with size 3 serves exactly 3 bytes. -/
theorem noise_chunk_exact_size_witness :
    ((NoiseManager.mk true [1, 2, 3] 2).get_background_chunk_raw 3).1.map List.length
      = some 3 := by
  obtain ⟨c, hc, hmin, hex⟩ :=
    noise_chunk_exact_size (NoiseManager.mk true [1, 2, 3] 2) 3 rfl (by decide)
  rw [hc]
  simp [hex (by decide)]

theorem update_true_nofire (cfg : VADConfig) (j g : Nat) (p : ℚ)
    (h2 : j + 1 < cfg.speech_threshold_frames) :
    update_speech_state cfg ⟨false, j, g⟩ true p
      = (⟨false, j + 1, 0⟩, ⟨true, true, p, false, false, false⟩) := by
  unfold update_speech_state
  rw [if_pos rfl, if_neg (fun h =>
    absurd h.2 ((by omega : ¬cfg.speech_threshold_frames ≤ j + 1)))]

theorem update_true_fire (cfg : VADConfig) (j g : Nat) (p : ℚ)
    (h2 : cfg.speech_threshold_frames ≤ j + 1) :
    update_speech_state cfg ⟨false, j, g⟩ true p
      = (⟨true, j + 1, 0⟩, ⟨true, true, p, true, false, true⟩) := by
  unfold update_speech_state
  rw [if_pos rfl, if_pos ⟨rfl, h2⟩]

theorem runWindows_all_speech (N silT : Nat) :
    ∀ k j : Nat, j + k = N → 1 ≤ k →
      ((runWindows ⟨N, silT⟩ ⟨false, j, 0⟩ (List.replicate k true)).2.map
          (fun r => r.speech_started) = List.replicate (k - 1) false ++ [true]) ∧
      (runWindows ⟨N, silT⟩ ⟨false, j, 0⟩ (List.replicate k true)).1
          = ⟨true, N, 0⟩ := by
  intro k
  induction k with
  | zero =>
      intro j hjk hk1
      omega
  | succ k ihk =>
      intro j hjk hk1
      cases k with
      | zero =>
          have hfire := update_true_fire ⟨N, silT⟩ j 0 0 (by simp only []; omega)
          have hj : j + 1 = N := by omega
          constructor
          · simp [runWindows, List.replicate_one, hfire]
          · simp [runWindows, List.replicate_one, hfire, hj]
      | succ k2 =>
          have hnof := update_true_nofire ⟨N, silT⟩ j 0 0 (by simp only []; omega)
          obtain ⟨ih1, ih2⟩ := ihk (j + 1) (by omega) (by omega)
          have hstep : runWindows ⟨N, silT⟩ ⟨false, j, 0⟩
              (List.replicate (k2 + 1 + 1) true)
              = ((runWindows ⟨N, silT⟩ ⟨false, j + 1, 0⟩
                    (List.replicate (k2 + 1) true)).1,
                 (⟨true, true, 0, false, false, false⟩ : VADResult)
                   :: (runWindows ⟨N, silT⟩ ⟨false, j + 1, 0⟩
                        (List.replicate (k2 + 1) true)).2) := by
            rw [List.replicate_succ]
            simp only [runWindows, hnof]
          rw [hstep]
          refine ⟨?_, ih2⟩
          simp only [List.map_cons, ih1]
          simp [List.replicate_succ]

/-- C5: from the not-speaking state with zeroed hysteresis counters,
feeding exactly `speech_threshold_frames` consecutive speech-classified
windows yields `speech_started = true` on the final window and on no
earlier window, leaves the machine speaking, and `speech_started` never
fires from a state that is already speaking. -/
theorem speech_start_fires_once (N silT : Nat) (hN : 1 ≤ N) :
    ((runWindows ⟨N, silT⟩ ⟨false, 0, 0⟩ (List.replicate N true)).2.map
        (fun r => r.speech_started) = List.replicate (N - 1) false ++ [true]) ∧
    ((runWindows ⟨N, silT⟩ ⟨false, 0, 0⟩ (List.replicate N true)).1.is_speaking
        = true) ∧
    (∀ (st : VADState) (b : Bool) (p : ℚ), st.is_speaking = true →
      (update_speech_state ⟨N, silT⟩ st b p).2.speech_started = false) := by
  obtain ⟨h1, h2⟩ := runWindows_all_speech N silT N 0 (by omega) hN
  refine ⟨h1, by rw [h2], ?_⟩
  intro st b p hsp
  unfold update_speech_state
  cases b with
  | false =>
      rw [if_neg (by simp)]
      dsimp only
      split
      · rfl
      · rfl
  | true =>
      rw [if_pos rfl]
      dsimp only
      split
      · rename_i hcond
        rw [hsp] at hcond
        exact absurd hcond.1 (by simp)
      · rfl

/-- Witness for `speech_start_fires_once` with the default configuration
`speech_frames = 3`. -/
theorem speech_start_fires_once_witness :
    (runWindows ⟨3, 10⟩ ⟨false, 0, 0⟩ (List.replicate 3 true)).2.map
        (fun r => r.speech_started) = List.replicate 2 false ++ [true] :=
  (speech_start_fires_once 3 10 (by decide)).1

/-- C6 counterexample: with cooldown 500 ms and an interruption fired at
t = 1000 ms, an identical event at t = 1500 ms — elapsed time exactly
equal to, hence not strictly exceeding, the cooldown — still fires. -/
theorem interruption_fires_at_exact_cooldown :
    ((check_interruption
        (check_interruption ⟨true, 500, 0, 0, 0, 0⟩ true true true 1000).1
        true true true 1500).2 = true) ∧
    ((1500 : ℚ)
        - (check_interruption ⟨true, 500, 0, 0, 0, 0⟩ true true
            true 1000).1.last_interruption_time
      > (check_interruption ⟨true, 500, 0, 0, 0, 0⟩ true true
            true 1000).1.cooldown_ms → False) := by
  constructor
  · norm_num [check_interruption]
  · norm_num [check_interruption]

/-- C6 (amended): `check_interruption` returns true exactly when the
detector is enabled, the VAD result is enabled, the agent is speaking,
the VAD reports `speech_started`, and the elapsed time since the last
fired interruption is at least (not strictly greater than) `cooldown_ms`;
when all other conditions hold inside the cooldown it increments
`false_positives_prevented` and returns false; a firing call records the
current time and increments `interruption_count` (so an identical event
after the cooldown has elapsed fires again). -/
theorem check_interruption_spec (d : InterruptionDetector)
    (vE sS aS : Bool) (t : ℚ) :
    ((check_interruption d vE sS aS t).2 = true ↔
      (d.enabled = true ∧ vE = true ∧ aS = true ∧ sS = true ∧
        d.cooldown_ms ≤ t - d.last_interruption_time)) ∧
    ((d.enabled = true ∧ vE = true ∧ aS = true ∧ sS = true ∧
        t - d.last_interruption_time < d.cooldown_ms) →
      ((check_interruption d vE sS aS t).2 = false ∧
       (check_interruption d vE sS aS t).1.false_positives_prevented
          = d.false_positives_prevented + 1)) ∧
    ((check_interruption d vE sS aS t).2 = true →
      ((check_interruption d vE sS aS t).1.last_interruption_time = t ∧
       (check_interruption d vE sS aS t).1.interruption_count
          = d.interruption_count + 1)) := by
  cases hE : d.enabled <;> cases vE <;> cases aS <;> cases sS <;>
    by_cases hc : t - d.last_interruption_time < d.cooldown_ms <;>
    first
      | simp [check_interruption, hE, hc, not_le.mpr hc]
      | simp [check_interruption, hE, hc, not_lt.mp hc]

/-- Witness for `check_interruption_spec`: a second event 200 ms after a
fired interruption with a 500 ms cooldown is suppressed and counted. -/
theorem check_interruption_spec_witness :
    (check_interruption ⟨true, 500, 1000, 1, 3, 0⟩ true true true 1200).2 = false ∧
    (check_interruption
        ⟨true, 500, 1000, 1, 3, 0⟩ true true true 1200).1.false_positives_prevented
      = 0 + 1 :=
  (check_interruption_spec ⟨true, 500, 1000, 1, 3, 0⟩ true true true 1200).2.1
    ⟨rfl, rfl, rfl, rfl, by norm_num⟩

theorem bumped_stationary (s : NoiseSuppressionProcessor) :
    s.bumped.stationary = s.stationary := rfl

theorem bumped_frames (s : NoiseSuppressionProcessor) :
    s.bumped.frames_processed = s.frames_processed + 1 := rfl

theorem bumped_learning (s : NoiseSuppressionProcessor) :
    s.bumped.learning_frames = s.learning_frames := rfl

theorem with_profile_errors (s : NoiseSuppressionProcessor) :
    s.with_profile.errors = s.errors := by
  unfold NoiseSuppressionProcessor.with_profile
  split
  · rfl
  · rfl

/-- C7: with suppression enabled and loaded in stationary mode, every
frame of the learning window (frames 1..learning_frames) is returned
byte-identical to its input while being appended to the noise-profile
buffer; the external reducer is never consulted for these frames (the
result does not depend on it), so suppression applies only from frame
`learning_frames + 1` onward. -/
theorem learning_frames_pass_through
    (reduce : List ℚ → Option (List ℚ) → Option (List ℚ))
    (s : NoiseSuppressionProcessor) (frame : List Int)
    (he : s.enabled = true) (hl : s.nr_loaded = true) (hst : s.stationary = true)
    (hf : s.frames_processed < s.learning_frames) :
    s.process_chunk reduce frame
      = ({ s.bumped with
           noise_profile_buffer := dequeAppend s.noise_profile_buffer
             (normalizeFrame frame) }, frame) := by
  unfold NoiseSuppressionProcessor.process_chunk
  rw [he, hl]
  rw [if_neg (by simp)]
  rw [if_pos ⟨by rw [bumped_stationary, hst],
      by rw [bumped_frames, bumped_learning]; omega⟩]
  rfl

/-- Witness for `learning_frames_pass_through`: the first frame of a
fresh stationary processor passes through unmodified. -/
theorem learning_frames_pass_through_witness :
    NoiseSuppressionProcessor.process_chunk (fun _ _ => none)
        ⟨true, true, true, 25, [], none, 0, 0, 0⟩ [100, -5]
      = ({ (⟨true, true, true, 25, [], none, 0, 0, 0⟩ :
            NoiseSuppressionProcessor).bumped with
           noise_profile_buffer := dequeAppend [] (normalizeFrame [100, -5]) },
         [100, -5]) :=
  learning_frames_pass_through (fun _ _ => none)
    ⟨true, true, true, 25, [], none, 0, 0, 0⟩ [100, -5] rfl rfl rfl (by decide)

/-- C8: if the external reduction call raises on a frame (the reducer
returns `none`), `process_chunk` returns the original frame unmodified
and increments the `errors` counter by exactly one; no exception
propagates — the function totally returns the fallback pair. -/
theorem suppression_error_returns_original
    (reduce : List ℚ → Option (List ℚ) → Option (List ℚ))
    (s : NoiseSuppressionProcessor) (frame : List Int)
    (he : s.enabled = true) (hl : s.nr_loaded = true)
    (hlearn : ¬(s.bumped.stationary = true
        ∧ s.bumped.frames_processed ≤ s.bumped.learning_frames))
    (herr : s.bumped.with_profile.reduce_call reduce (normalizeFrame frame) = none) :
    (s.process_chunk reduce frame).2 = frame ∧
    (s.process_chunk reduce frame).1.errors = s.errors + 1 := by
  unfold NoiseSuppressionProcessor.process_chunk
  rw [he, hl]
  rw [if_neg (by simp)]
  rw [if_neg hlearn]
  dsimp only
  rw [herr]
  exact ⟨rfl, by simp [with_profile_errors]; rfl⟩

/-- Witness for `suppression_error_returns_original`: an always-failing
reducer on a processor past its learning window. -/
theorem suppression_error_returns_original_witness :
    (NoiseSuppressionProcessor.process_chunk (fun _ _ => none)
        ⟨true, true, true, 0, [], none, 0, 0, 0⟩ [3, 4]).2 = [3, 4] ∧
    (NoiseSuppressionProcessor.process_chunk (fun _ _ => none)
        ⟨true, true, true, 0, [], none, 0, 0, 0⟩ [3, 4]).1.errors = 0 + 1 :=
  suppression_error_returns_original (fun _ _ => none)
    ⟨true, true, true, 0, [], none, 0, 0, 0⟩ [3, 4] rfl rfl (by decide) rfl

theorem clamp16_bounds (x : Int) : -32768 ≤ clamp16 x ∧ clamp16 x ≤ 32767 := by
  unfold clamp16
  omega

/-- C4: the mixer returns a companded buffer of exactly the primary's
length (tiling or truncating the secondary as needed), returns the other
operand unchanged when either operand is empty, and every mixed linear
sample is clamped into [-32768, 32767]. -/
theorem mix_spec (enc : Int → Nat) (dec : Nat → Int) (g : ℚ)
    (p s : List Nat) :
    (mix enc dec g [] s = s) ∧
    (mix enc dec g p [] = p) ∧
    (p ≠ [] → (mix enc dec g p s).length = p.length) ∧
    (∀ x ∈ mixLinear g (p.map dec) (s.map dec), -32768 ≤ x ∧ x ≤ 32767) := by
  refine ⟨?_, ?_, ?_, ?_⟩
  · simp [mix]
  · by_cases hp : p = [] <;> simp [mix, hp]
  · intro hp
    by_cases hs : s = []
    · simp [mix, hp, hs]
    · have htile : ∀ (t : Nat) (l : List Int), (tileTo t l).length = t := by
        intro t l
        simp [tileTo]
      unfold mix
      rw [if_neg hp, if_neg hs]
      rw [List.length_map]
      unfold mixLinear
      rw [List.length_map, List.length_zipWith, htile, List.length_map,
        Nat.min_self]
  · intro x hx
    obtain ⟨q, hq, hxq⟩ := List.mem_map.mp hx
    rw [← hxq]
    exact clamp16_bounds (truncQ q)

/-- Witness for `mix_spec`: a two-byte primary mixed with a one-byte
secondary keeps the primary's length. -/
theorem mix_spec_witness :
    (mix (fun x => x.toNat) (fun b => (b : Int)) 2 [3, 4] [5]).length
      = ([3, 4] : List Nat).length :=
  (mix_spec (fun x => x.toNat) (fun b => (b : Int)) 2 [3, 4] [5]).2.2.1 (by decide)

/-- C2: with `call_ended` set on the message handler,
`send_audio_to_plivo` writes nothing to the WebSocket, returns false and
changes no state; media events and binary frames are not forwarded to
the audio callback; and with the session's `call_ended` flag set,
inbound telephony audio is never pushed to the room audio source. -/
theorem no_audio_after_call_ended :
    (∀ (h : PlivoMessageHandler) (wsOk sendOk errClosed : Bool) (audio : List Nat),
      h.call_ended = true →
        send_audio_to_plivo h wsOk sendOk errClosed audio = (h, none, false)) ∧
    (∀ (h : PlivoMessageHandler) (now : ℚ) (cb : Bool) (payload : Option (List Nat)),
      h.call_ended = true →
        (handle_message h now cb (.mediaEvent payload)).2.1 = []) ∧
    (∀ (h : PlivoMessageHandler) (now : ℚ) (cb : Bool) (data : List Nat),
      h.call_ended = true →
        (handle_message h now cb (.binary data)).2.1 = []) ∧
    (∀ (w : TelephonyWebSocketHandler) (b1 b2 b3 b4 : Bool) (audio : List Nat),
      w.call_ended = true →
        handle_audio_from_plivo w b1 b2 b3 b4 audio = (w, [])) := by
  refine ⟨?_, ?_, ?_, ?_⟩
  · intro h wsOk sendOk errClosed audio hce
    unfold send_audio_to_plivo
    rw [if_pos hce]
  · intro h now cb payload hce
    simp [handle_message, hce]
  · intro h now cb data hce
    simp [handle_message, hce]
  · intro w b1 b2 b3 b4 audio hce
    simp [handle_audio_from_plivo, hce]

/-- Witness for `no_audio_after_call_ended`: a concrete ended handler
refuses a send. -/
theorem no_audio_after_call_ended_witness :
    send_audio_to_plivo ⟨some 1, false, true, true, 5, 2, none⟩ true true false [9]
      = (⟨some 1, false, true, true, 5, 2, none⟩, none, false) :=
  no_audio_after_call_ended.1 ⟨some 1, false, true, true, 5, 2, none⟩
    true true false [9] rfl

/-- C10: a binary frame or media event delivered while the call is not
active or already ended invokes no audio callback, emits no event, and
changes only `messages_received` and `last_message_time`. -/
theorem inactive_frames_only_bump_counters
    (h : PlivoMessageHandler) (now : ℚ) (cb : Bool)
    (hi : h.call_active = false ∨ h.call_ended = true) :
    (∀ data : List Nat,
      handle_message h now cb (.binary data)
        = ({ h with messages_received := h.messages_received + 1,
                    last_message_time := some now }, [], false)) ∧
    (∀ payload : Option (List Nat),
      handle_message h now cb (.mediaEvent payload)
        = ({ h with messages_received := h.messages_received + 1,
                    last_message_time := some now }, [], false)) := by
  rcases hi with hi | hi
  · exact ⟨fun data => by simp [handle_message, hi],
           fun payload => by simp [handle_message, hi]⟩
  · exact ⟨fun data => by simp [handle_message, hi],
           fun payload => by simp [handle_message, hi]⟩

/-- Witness for `inactive_frames_only_bump_counters`: an audio payload
arriving before any start event only bumps the counters. -/
theorem inactive_frames_only_bump_counters_witness :
    handle_message ⟨none, false, false, false, 0, 0, none⟩ 7 true (.binary [1, 2])
      = ({ (⟨none, false, false, false, 0, 0, none⟩ : PlivoMessageHandler) with
           messages_received := 0 + 1, last_message_time := some 7 }, [], false) :=
  (inactive_frames_only_bump_counters ⟨none, false, false, false, 0, 0, none⟩
    7 true (Or.inl rfl)).1 [1, 2]

theorem stepCleanup_inv (s : CleanupSys) (w : Bool) (h : CleanupInv s) :
    CleanupInv (stepCleanup s w) := by
  obtain ⟨h1, h2, h3, h4⟩ := h
  cases w <;> cases hpc1 : s.pc1 <;> cases hpc2 : s.pc2 <;>
    cases hflag : s.cleanup_started <;>
    simp_all [stepCleanup, stepTask, CleanupInv, runCount, activeCount]

theorem runSched_inv (sched : List Bool) :
    ∀ s : CleanupSys, CleanupInv s → CleanupInv (runSched s sched) := by
  induction sched with
  | nil =>
      intro s h
      exact h
  | cons w ws ih =>
      intro s h
      exact ih (stepCleanup s w) (stepCleanup_inv s w h)

theorem runCount_le_activeCount (p : CleanupPC) : runCount p ≤ activeCount p := by
  cases p <;> simp [runCount, activeCount]

/-- C1: under every interleaving of two concurrent `cleanup()`
invocations on a fresh session, at most one disconnect/stats-log
sequence ever executes; once both invocations have finished, exactly one
has executed; and an invocation whose guard observes `cleanup_started`
already set returns immediately without touching the state. -/
theorem cleanup_runs_exactly_once (sched : List Bool) :
    ((runSched initCleanup sched).executions ≤ 1) ∧
    (doneTask (runSched initCleanup sched).pc1 = true →
      doneTask (runSched initCleanup sched).pc2 = true →
      (runSched initCleanup sched).executions = 1) ∧
    (∀ s : CleanupSys, s.cleanup_started = true →
      stepTask s CleanupPC.atGuard = (s, CleanupPC.doneSkip)) := by
  have hinv := runSched_inv sched initCleanup
    (by simp [CleanupInv, initCleanup, runCount, activeCount])
  obtain ⟨h1, h2, h3, h4⟩ := hinv
  refine ⟨?_, ?_, ?_⟩
  · have k1 := runCount_le_activeCount (runSched initCleanup sched).pc1
    have k2 := runCount_le_activeCount (runSched initCleanup sched).pc2
    omega
  · intro hd1 hd2
    cases hflag : (runSched initCleanup sched).cleanup_started
    · obtain ⟨e1, e2⟩ := h3 hflag
      rw [e1] at hd1
      exact absurd hd1 (by simp [doneTask])
    · have h5 := h4 hflag
      have k1 : activeCount (runSched initCleanup sched).pc1
          = runCount (runSched initCleanup sched).pc1 := by
        cases hp : (runSched initCleanup sched).pc1 <;>
          rw [hp] at hd1 <;> simp_all [doneTask, activeCount, runCount]
      have k2 : activeCount (runSched initCleanup sched).pc2
          = runCount (runSched initCleanup sched).pc2 := by
        cases hp : (runSched initCleanup sched).pc2 <;>
          rw [hp] at hd2 <;> simp_all [doneTask, activeCount, runCount]
      omega
  · intro s hs
    simp [stepTask, hs]

/-- Witness for `cleanup_runs_exactly_once`: the interleaving
guard-1, guard-2, body-1 finishes both invocations with exactly one
cleanup execution. -/
theorem cleanup_runs_exactly_once_witness :
    (runSched initCleanup [true, false, true]).executions = 1 :=
  (cleanup_runs_exactly_once [true, false, true]).2.1 (by decide) (by decide)

end TelephonyWS
